import Mathlib

/-!
Verification of the in-memory execution repository
(`src/repositories/in_memory.py`, class `InMemoryExecutionRepository`)
against its natural-language specification.

Modelling decisions:
* Python dicts are modelled as association lists with in-place replacement on
  existing keys and append on fresh keys (`dictInsert` / `dictGet`), which
  preserves the insertion-order behaviour of CPython dicts.
* `datetime.utcnow()` is modelled by an explicit `now : Nat` argument to the
  operations that read the clock (`create_execution`, `update_status`).
* The repository lock (`threading.RLock`) makes every operation a single
  atomic step, so the sequential functional semantics below is faithful.
* `stats` builds a dict of counters whose keys are `"total"` plus the six
  status values; since every status value is one of those keys, the source's
  `if key in totals` guard is always true, and the dict of counters is
  modelled as the structure `StatsTotals`.
-/

namespace ExecutionService

inductive ExecutionEnvironment where
  | LOCAL
  | AIRFLOW
  | SIMULATED
deriving DecidableEq, Repr

inductive ExecutionStatus where
  | QUEUED
  | RUNNING
  | COMPLETED
  | FAILED
  | CANCELED
  | TIMEOUT
deriving DecidableEq, Repr

/-- Git source inputs (`GitSource` in `models/schemas.py`). -/
structure GitSource where
  repository_url : String
  branch : Option String
  commit_sha : Option String
  subpath : Option String
deriving DecidableEq, Repr

/-- Model of `parameters: Dict[str, Any]`; values are opaque to the repository. -/
abbrev Params := List (String × String)

/-- Model of `result: Optional[Dict[str, Any]]`; values are opaque to the repository. -/
abbrev ResultPayload := List (String × String)

/-- Record type `ExecutionDetail` in `models/schemas.py` (the fields the repository uses). -/
structure ExecutionDetail where
  execution_id : String
  status : ExecutionStatus
  environment : ExecutionEnvironment
  created_at : Nat
  updated_at : Nat
  correlation_id : Option String
  git : GitSource
  entrypoint : String
  parameters : Params
  result : Option ResultPayload
  error : Option String
  logs_pointer : String
deriving DecidableEq, Repr

/-- Lookup in a Python-dict-as-association-list (`d.get(k)` / `d[k]`). -/
def dictGet (k : String) : List (String × α) → Option α
  | [] => none
  | (k', v) :: rest => if k' = k then some v else dictGet k rest

/-- Assignment `d[k] = v` on a Python-dict-as-association-list: replaces the
value in place when the key exists, appends the key otherwise. -/
def dictInsert (k : String) (v : α) : List (String × α) → List (String × α)
  | [] => [(k, v)]
  | (k', v') :: rest => if k' = k then (k, v) :: rest else (k', v') :: dictInsert k v rest

/-- The mutable state of `InMemoryExecutionRepository`:
`_executions`, `_logs`, `_created_order`. -/
structure Store where
  executions : List (String × ExecutionDetail)
  logs : List (String × List String)
  created_order : List String
deriving DecidableEq, Repr

/-- The state built by `__init__`. -/
def emptyStore : Store := ⟨[], [], []⟩

/-- Source `create_execution` (lines 19-48): builds a fresh QUEUED record, stores it
under the id, appends the id to `_created_order`, and `setdefault`s the log
buffer (an existing buffer is kept). -/
def create_execution (s : Store) (execution_id : String) (git : GitSource)
    (entrypoint : String) (parameters : Params)
    (environment : ExecutionEnvironment) (correlation_id : Option String)
    (now : Nat) : ExecutionDetail × Store :=
  let detail : ExecutionDetail :=
    { execution_id := execution_id
      status := ExecutionStatus.QUEUED
      environment := environment
      created_at := now
      updated_at := now
      correlation_id := correlation_id
      git := git
      entrypoint := entrypoint
      parameters := parameters
      result := none
      error := none
      logs_pointer := "mem:" ++ execution_id }
  (detail,
    { s with
      executions := dictInsert execution_id detail s.executions
      created_order := s.created_order ++ [execution_id]
      logs :=
        match dictGet execution_id s.logs with
        | some _ => s.logs
        | none => dictInsert execution_id [] s.logs })

/-- Source `get_execution` (lines 51-54). -/
def get_execution (s : Store) (execution_id : String) : Option ExecutionDetail :=
  dictGet execution_id s.executions

/-- Source `update_status` (lines 57-75): `None` for `result`/`error` means the
argument was not provided and the prior value is kept. -/
def update_status (s : Store) (execution_id : String) (status : ExecutionStatus)
    (result : Option ResultPayload) (error : Option String) (now : Nat) :
    Option ExecutionDetail × Store :=
  match dictGet execution_id s.executions with
  | none => (none, s)
  | some detail =>
    let detail' : ExecutionDetail :=
      { detail with
        status := status
        result := match result with | some r => some r | none => detail.result
        error := match error with | some e => some e | none => detail.error
        updated_at := now }
    (some detail', { s with executions := dictInsert execution_id detail' s.executions })

/-- The log buffer currently stored under an id (`self._logs.get(id, [])`). -/
def logsOf (s : Store) (execution_id : String) : List String :=
  (dictGet execution_id s.logs).getD []

/-- Source `append_logs` (lines 78-83): creates the buffer when absent, then extends
it with the given lines. -/
def append_logs (s : Store) (execution_id : String) (lines : List String) : Store :=
  { s with
    logs := dictInsert execution_id (logsOf s execution_id ++ lines) s.logs }

/-- The terminal statuses used by `read_logs` (lines 99-101). -/
def terminalStatuses : List ExecutionStatus :=
  [ExecutionStatus.COMPLETED, ExecutionStatus.FAILED,
   ExecutionStatus.CANCELED, ExecutionStatus.TIMEOUT]

/-- Source `read_logs` (lines 86-103): returns `(lines, next_offset, eof)`.
`lines[offset:end]` on a Python list with `0 ≤ offset` and `0 ≤ end` is
`(lines.drop offset).take (end - offset)` (empty when `end ≤ offset`). -/
def read_logs (s : Store) (execution_id : String) (offset limit : Nat) :
    List String × Nat × Bool :=
  let lines := logsOf s execution_id
  let total := lines.length
  let e := min total (offset + limit)
  let slice := (lines.drop offset).take (e - offset)
  let terminal : Bool :=
    match dictGet execution_id s.executions with
    | some d => decide (d.status ∈ terminalStatuses)
    | none => false
  (slice, e, terminal && decide (total ≤ e))

/-- Python `xs[-n:]` for `n ≥ 1`: the last `n` elements. -/
def lastN (n : Nat) (xs : List α) : List α := xs.drop (xs.length - n)

/-- Source `list_executions` (lines 106-115): take the creation-order tail of size
`limit`, resolve ids, optionally filter by status, then stable-sort by
`created_at` descending (Python's stable `sort` with `reverse=True`). -/
def list_executions (s : Store) (limit : Nat) (status : Option ExecutionStatus) :
    List ExecutionDetail :=
  let ids := lastN limit s.created_order
  let records := ids.filterMap (fun i => dictGet i s.executions)
  let filtered :=
    match status with
    | some st => records.filter (fun r : ExecutionDetail => decide (r.status = st))
    | none => records
  filtered.mergeSort (fun a b => decide (b.created_at ≤ a.created_at))

/-- The records of the creation-order tail of size `limit`, in creation
order (the intermediate list of `list_executions` before filtering). -/
def tailRecords (s : Store) (limit : Nat) : List ExecutionDetail :=
  (lastN limit s.created_order).filterMap (fun i => get_execution s i)

/-- The creation-order tail restricted by the optional status filter (the
intermediate list of `list_executions` before sorting). -/
def filteredTail (s : Store) (limit : Nat) (status : Option ExecutionStatus) :
    List ExecutionDetail :=
  match status with
  | some st => (tailRecords s limit).filter (fun r => decide (r.status = st))
  | none => tailRecords s limit

/-- The counters dict built by `stats` (lines 121-129), as a structure:
its keys are `"total"` and the six status values. -/
structure StatsTotals where
  total : Nat
  queued : Nat
  running : Nat
  completed : Nat
  failed : Nat
  canceled : Nat
  timeout : Nat
deriving DecidableEq, Repr

/-- One iteration of the `stats` loop (lines 130-133): `d.status.value` is
always a key of the counters dict, so the guarded increment always fires. -/
def statsBump (t : StatsTotals) (st : ExecutionStatus) : StatsTotals :=
  match st with
  | ExecutionStatus.QUEUED => { t with queued := t.queued + 1 }
  | ExecutionStatus.RUNNING => { t with running := t.running + 1 }
  | ExecutionStatus.COMPLETED => { t with completed := t.completed + 1 }
  | ExecutionStatus.FAILED => { t with failed := t.failed + 1 }
  | ExecutionStatus.CANCELED => { t with canceled := t.canceled + 1 }
  | ExecutionStatus.TIMEOUT => { t with timeout := t.timeout + 1 }

/-- Source `stats` (lines 118-134). -/
def stats (s : Store) : StatsTotals :=
  s.executions.foldl (fun t kv => statsBump t kv.2.status)
    { total := s.executions.length, queued := 0, running := 0, completed := 0,
      failed := 0, canceled := 0, timeout := 0 }

/-- The repository calls that mutate the store, for reasoning about call
sequences; each carries the arguments of one call. -/
inductive Op where
  | create (execution_id : String) (git : GitSource) (entrypoint : String)
      (parameters : Params) (environment : ExecutionEnvironment)
      (correlation_id : Option String) : Op
  | update (execution_id : String) (status : ExecutionStatus)
      (result : Option ResultPayload) (error : Option String) : Op
  | append (execution_id : String) (lines : List String) : Op

/-- Apply one mutating call at clock value `now`, keeping only the store. -/
def applyOp (now : Nat) (op : Op) (s : Store) : Store :=
  match op with
  | Op.create i g e p env c => (create_execution s i g e p env c now).2
  | Op.update i st r err => (update_status s i st r err now).2
  | Op.append i ls => append_logs s i ls

/-- Run a timed trace of mutating calls, left to right. -/
def run (tr : List (Nat × Op)) (s : Store) : Store :=
  match tr with
  | [] => s
  | (now, op) :: rest => run rest (applyOp now op s)

/-- The clock values of a trace are non-decreasing and at least `t`
(`datetime.utcnow()` read under a monotone clock). -/
def chainLE (t : Nat) : List (Nat × Op) → Bool
  | [] => true
  | (n, _) :: rest => decide (t ≤ n) && chainLE n rest

/-- The clock value after running a trace whose clock started at `t`. -/
def lastClock (t : Nat) : List (Nat × Op) → Nat
  | [] => t
  | (n, _) :: rest => lastClock n rest

/-- Every record's timestamps are ordered and bounded by the clock `t`. -/
def TimesBelow (t : Nat) (s : Store) : Prop :=
  ∀ i r, get_execution s i = some r → r.created_at ≤ r.updated_at ∧ r.updated_at ≤ t

/-- A concrete git source, mirroring the repository's own test fixture. -/
def sampleGit : GitSource :=
  ⟨"https://example.com/repo.git", some "main", none, some "scripts"⟩

/-- Store after `create("e1")` at time 0 and `append_logs("e1", [l1, l2, l3])`. -/
def storeA : Store :=
  append_logs
    (create_execution emptyStore "e1" sampleGit "run.py" [("x", "1")]
      ExecutionEnvironment.SIMULATED (some "c1") 0).2
    "e1" ["l1", "l2", "l3"]

/-- State of `storeA` after `update_status("e1", COMPLETED, result)` at time 1. -/
def storeA2 : Store :=
  (update_status storeA "e1" ExecutionStatus.COMPLETED (some [("ok", "true")]) none 1).2

/-- The record stored for `e1` in `storeA`. -/
def detailA : ExecutionDetail :=
  { execution_id := "e1"
    status := ExecutionStatus.QUEUED
    environment := ExecutionEnvironment.SIMULATED
    created_at := 0
    updated_at := 0
    correlation_id := some "c1"
    git := sampleGit
    entrypoint := "run.py"
    parameters := [("x", "1")]
    result := none
    error := none
    logs_pointer := "mem:e1" }

/-- The record stored for `e1` in `storeA2` (COMPLETED with a result). -/
def detailA2 : ExecutionDetail :=
  { detailA with
    status := ExecutionStatus.COMPLETED
    result := some [("ok", "true")]
    updated_at := 1 }

/-- The record stored for `e2` in `storeC` (COMPLETED at time 3). -/
def detailE2 : ExecutionDetail :=
  { execution_id := "e2"
    status := ExecutionStatus.COMPLETED
    environment := ExecutionEnvironment.SIMULATED
    created_at := 1
    updated_at := 3
    correlation_id := none
    git := sampleGit
    entrypoint := "run.py"
    parameters := []
    result := none
    error := none
    logs_pointer := "mem:e2" }

/-- Store with an orphan log buffer: lines appended under id `x` although no
record was ever created for `x`. -/
def storeB : Store := append_logs emptyStore "x" ["a", "b"]

/-- Store after creating `e1`, `e2`, `e3` (times 0, 1, 2) and marking `e2`
COMPLETED at time 3; `e1` and `e3` stay QUEUED. -/
def storeC : Store :=
  (update_status
    (create_execution
      (create_execution
        (create_execution emptyStore "e1" sampleGit "run.py" []
          ExecutionEnvironment.SIMULATED none 0).2
        "e2" sampleGit "run.py" [] ExecutionEnvironment.SIMULATED none 1).2
      "e3" sampleGit "run.py" [] ExecutionEnvironment.SIMULATED none 2).2
    "e2" ExecutionStatus.COMPLETED none none 3).2

/-- Store where `m1` (created first) is COMPLETED and the two later records
`m2`, `m3` are QUEUED: a completed record exists outside the tail of size 2. -/
def storeTail : Store :=
  (create_execution
    (create_execution
      (update_status
        (create_execution emptyStore "m1" sampleGit "run.py" []
          ExecutionEnvironment.SIMULATED none 0).2
        "m1" ExecutionStatus.COMPLETED none none 1).2
      "m2" sampleGit "run.py" [] ExecutionEnvironment.SIMULATED none 2).2
    "m3" sampleGit "run.py" [] ExecutionEnvironment.SIMULATED none 3).2

/-- State of `storeA` after calling `create` a second time with the already-used id
`e1` (fresh arguments, time 5). -/
def storeDup : Store :=
  (create_execution storeA "e1" sampleGit "other.py" []
    ExecutionEnvironment.LOCAL none 5).2

/-!  ## Helper lemmas about the dict model -/

theorem dictGet_dictInsert_self (k : String) (v : α) (l : List (String × α)) :
    dictGet k (dictInsert k v l) = some v := by
  induction l with
  | nil => simp [dictGet, dictInsert]
  | cons hd tl ih =>
    by_cases h : hd.1 = k
    · simp [dictGet, dictInsert, h]
    · simpa [dictGet, dictInsert, h] using ih

theorem dictGet_dictInsert_ne (k k' : String) (h : k' ≠ k) (v : α)
    (l : List (String × α)) : dictGet k (dictInsert k' v l) = dictGet k l := by
  induction l with
  | nil => simp [dictGet, dictInsert, h]
  | cons hd tl ih =>
    by_cases h' : hd.1 = k'
    · simp [dictGet, dictInsert, h', h]
    · by_cases h'' : hd.1 = k
      · simp [dictGet, dictInsert, h', h'', Ne.symm h]
      · simpa [dictGet, dictInsert, h', h''] using ih

/-!  ## Helper lemmas about `read_logs` -/

/-- The Python slice `lines[offset:end]` with `end = min(len, offset+limit)`
is a plain drop-then-take. -/
theorem drop_take_min (xs : List β) (o l : Nat) :
    (xs.drop o).take (min xs.length (o + l) - o) = (xs.drop o).take l := by
  rw [List.take_eq_take]
  simp only [List.length_drop]
  omega

theorem read_logs_fst (s : Store) (i : String) (o l : Nat) :
    (read_logs s i o l).1 = ((logsOf s i).drop o).take l := by
  simp only [read_logs]
  exact drop_take_min _ _ _

theorem read_logs_nextOffset (s : Store) (i : String) (o l : Nat) :
    (read_logs s i o l).2.1 = min (logsOf s i).length (o + l) := rfl

theorem read_logs_eof_eq (s : Store) (i : String) (o l : Nat) :
    (read_logs s i o l).2.2 = true ↔
      (∃ d, get_execution s i = some d ∧ d.status ∈ terminalStatuses)
        ∧ (logsOf s i).length ≤ o + l := by
  simp only [read_logs, get_execution]
  cases hd : dictGet i s.executions with
  | none => simp
  | some d =>
    simp only [Bool.and_eq_true, decide_eq_true_eq]
    constructor
    · rintro ⟨ht, he⟩
      exact ⟨⟨d, rfl, by simpa using ht⟩, by omega⟩
    · rintro ⟨⟨d', hd', ht⟩, he⟩
      cases Option.some.inj hd'
      exact ⟨by simpa using ht, by omega⟩

/-!  ## Claim theorems -/

/-- C2: for an id holding an execution record, `read_logs(id, offset, limit)`
returns the buffer slice `buffer[offset : min(len, offset+limit)]`, returns
`next_offset = min(len, offset+limit)`, and returns `eof = true` iff the
record's status is terminal (COMPLETED, FAILED, CANCELED, TIMEOUT) and the
read's end reached the buffer length; in particular `eof` is `false` whenever
the status is QUEUED or RUNNING, regardless of the offset. -/
theorem read_logs_contract (s : Store) (i : String) (o l : Nat)
    (d : ExecutionDetail) (hd : get_execution s i = some d) (hl : 1 ≤ l) :
    (read_logs s i o l).1 = ((logsOf s i).drop o).take l
    ∧ (read_logs s i o l).2.1 = min (logsOf s i).length (o + l)
    ∧ ((read_logs s i o l).2.2 = true ↔
        d.status ∈ terminalStatuses ∧ (logsOf s i).length ≤ (read_logs s i o l).2.1)
    ∧ ((d.status = ExecutionStatus.QUEUED ∨ d.status = ExecutionStatus.RUNNING) →
        (read_logs s i o l).2.2 = false) := by
  refine ⟨read_logs_fst s i o l, read_logs_nextOffset s i o l, ?_, ?_⟩
  · rw [read_logs_eof_eq, read_logs_nextOffset]
    constructor
    · rintro ⟨⟨d', hd', ht⟩, hle⟩
      rw [hd] at hd'
      cases Option.some.inj hd'
      exact ⟨ht, by omega⟩
    · rintro ⟨ht, hle⟩
      exact ⟨⟨d, hd, ht⟩, by omega⟩
  · intro hq
    have hnt : ¬ d.status ∈ terminalStatuses := by
      rcases hq with h | h <;> simp [h, terminalStatuses]
    cases hEof : (read_logs s i o l).2.2 with
    | false => rfl
    | true =>
      obtain ⟨⟨d', hd', ht⟩, -⟩ := (read_logs_eof_eq s i o l).mp hEof
      rw [hd] at hd'
      cases Option.some.inj hd'
      exact absurd ht hnt

/-- Witness for C2 at `storeA` (the record `e1` with a 3-line buffer). -/
theorem read_logs_contract_witness :
    get_execution storeA "e1" = some detailA ∧ 1 ≤ 2
    ∧ ((read_logs storeA "e1" 0 2).1 = ((logsOf storeA "e1").drop 0).take 2
      ∧ (read_logs storeA "e1" 0 2).2.1 = min (logsOf storeA "e1").length (0 + 2)
      ∧ ((read_logs storeA "e1" 0 2).2.2 = true ↔
          detailA.status ∈ terminalStatuses
            ∧ (logsOf storeA "e1").length ≤ (read_logs storeA "e1" 0 2).2.1)
      ∧ ((detailA.status = ExecutionStatus.QUEUED
            ∨ detailA.status = ExecutionStatus.RUNNING) →
          (read_logs storeA "e1" 0 2).2.2 = false)) :=
  ⟨rfl, by decide, read_logs_contract storeA "e1" 0 2 detailA rfl (by decide)⟩

/-- C3 counterexample: `read_logs` does not signal NotFound for an id without
a record; on the store where lines were appended under `x` with no record,
it returns the appended lines with `eof = false` instead. -/
theorem read_logs_missing_counterexample :
    get_execution storeB "x" = none
    ∧ read_logs storeB "x" 0 10 = (["a", "b"], 2, false) := ⟨rfl, rfl⟩

/-- C3 amended: for an id with no execution record, `read_logs` does not
report NotFound; it returns the slice of whatever orphan buffer exists under
that id (empty when none) with `next_offset = min(len, offset+limit)` and
`eof = false` (NotFound for unknown ids is surfaced by the service/API layer,
not by the repository's `read_logs`). -/
theorem read_logs_missing_spec (s : Store) (i : String) (o l : Nat)
    (h : get_execution s i = none) (hl : 1 ≤ l) :
    (read_logs s i o l).1 = ((logsOf s i).drop o).take l
    ∧ (read_logs s i o l).2.1 = min (logsOf s i).length (o + l)
    ∧ (read_logs s i o l).2.2 = false := by
  refine ⟨read_logs_fst s i o l, read_logs_nextOffset s i o l, ?_⟩
  simp only [get_execution] at h
  simp [read_logs, h]

/-- Witness for the amended C3 at `storeB` (orphan buffer, no record). -/
theorem read_logs_missing_spec_witness :
    get_execution storeB "x" = none ∧ 1 ≤ 5
    ∧ ((read_logs storeB "x" 1 5).1 = ((logsOf storeB "x").drop 1).take 5
      ∧ (read_logs storeB "x" 1 5).2.1 = min (logsOf storeB "x").length (1 + 5)
      ∧ (read_logs storeB "x" 1 5).2.2 = false) :=
  ⟨rfl, by decide, read_logs_missing_spec storeB "x" 1 5 rfl (by decide)⟩

/-- C4 counterexample: `append_logs` on an id with no record is not a no-op:
it changes the store, creating a buffer under that id holding the lines. -/
theorem append_logs_unknown_counterexample :
    get_execution emptyStore "x" = none
    ∧ append_logs emptyStore "x" ["a"] ≠ emptyStore
    ∧ logsOf (append_logs emptyStore "x" ["a"]) "x" = ["a"] := by
  refine ⟨rfl, ?_, rfl⟩
  decide

/-- C4 amended: for an id with no execution record, `append_logs` returns
without failure and leaves the record map and the creation order unchanged,
but the lines are not dropped: a buffer is created (or extended) under that
id holding them, and every other id's buffer is untouched. -/
theorem append_logs_unknown_spec (s : Store) (i : String) (lines : List String)
    (h : get_execution s i = none) :
    (append_logs s i lines).executions = s.executions
    ∧ (append_logs s i lines).created_order = s.created_order
    ∧ logsOf (append_logs s i lines) i = logsOf s i ++ lines
    ∧ ∀ j, j ≠ i → logsOf (append_logs s i lines) j = logsOf s j := by
  refine ⟨rfl, rfl, ?_, ?_⟩
  · simp [logsOf, append_logs, dictGet_dictInsert_self]
  · intro j hj
    simp [logsOf, append_logs, dictGet_dictInsert_ne j i (Ne.symm hj)]

/-- Witness for the amended C4 at `storeB`, appending one more line. -/
theorem append_logs_unknown_spec_witness :
    get_execution storeB "x" = none
    ∧ ((append_logs storeB "x" ["c"]).executions = storeB.executions
      ∧ (append_logs storeB "x" ["c"]).created_order = storeB.created_order
      ∧ logsOf (append_logs storeB "x" ["c"]) "x" = logsOf storeB "x" ++ ["c"]
      ∧ ∀ j, j ≠ "x" → logsOf (append_logs storeB "x" ["c"]) j = logsOf storeB j) :=
  ⟨rfl, append_logs_unknown_spec storeB "x" ["c"] rfl⟩

/-- Python `xs[-n:]` returns the whole list when `n` covers its length. -/
theorem lastN_of_le (n : Nat) (xs : List α) (h : xs.length ≤ n) :
    lastN n xs = xs := by
  simp [lastN, Nat.sub_eq_zero_of_le h]

/-- Each occurrence of `i` in `l` contributes, through `filterMap f`, one
element satisfying `p` whenever `f i` yields such an element. -/
theorem count_le_countP_filterMap (f : String → Option ExecutionDetail)
    (p : ExecutionDetail → Bool) (i : String) (d : ExecutionDetail)
    (hf : f i = some d) (hp : p d = true) :
    ∀ l : List String, l.count i ≤ List.countP p (l.filterMap f) := by
  intro l
  induction l with
  | nil => simp
  | cons hd tl ih =>
    rw [List.count_cons, List.filterMap_cons]
    by_cases ha : hd = i
    · subst ha
      rw [hf]
      simp only [List.countP_cons, hp, beq_self_eq_true, if_true]
      omega
    · have hba : (hd == i) = false := beq_false_of_ne ha
      rw [hba]
      cases hfa : f hd with
      | none => simpa using ih
      | some d' =>
        rw [List.countP_cons]
        simp only [if_false, Bool.false_eq_true]
        omega

/-- Effects of `create_execution` on the touched id, for any prior state:
the fresh record is stored under the id, the id is appended to the creation
order, and a pre-existing log buffer is kept as is (`setdefault`). -/
theorem create_execution_effects (s : Store) (i : String) (g : GitSource)
    (ep : String) (ps : Params) (env : ExecutionEnvironment)
    (cid : Option String) (now : Nat) :
    get_execution (create_execution s i g ep ps env cid now).2 i
        = some (create_execution s i g ep ps env cid now).1
    ∧ logsOf (create_execution s i g ep ps env cid now).2 i = logsOf s i
    ∧ (create_execution s i g ep ps env cid now).2.created_order
        = s.created_order ++ [i] := by
  refine ⟨?_, ?_, rfl⟩
  · simp [create_execution, get_execution, dictGet_dictInsert_self]
  · cases hb : dictGet i s.logs with
    | none => simp [logsOf, create_execution, hb, dictGet_dictInsert_self]
    | some b => simp [logsOf, create_execution, hb]

/-- C1 counterexample: in `storeA` the id `e1` already has a record, yet the
second `create` with id `e1` (building `storeDup`) does not fail: it changes
the stored record and appends `e1` to the creation order a second time. -/
theorem create_duplicate_counterexample :
    get_execution storeA "e1" = some detailA
    ∧ get_execution storeDup "e1" ≠ some detailA
    ∧ storeDup.created_order = ["e1", "e1"] := by
  refine ⟨rfl, ?_, rfl⟩
  decide

/-- C1 amended: a second `create` with an id that already has a record does
not fail with DuplicateId: it succeeds and replaces the stored record with a
fresh QUEUED record (both timestamps set to the call time, result and error
cleared), while the id's existing log buffer is kept unchanged. -/
theorem create_duplicate_overwrites (s : Store) (i : String) (g : GitSource)
    (ep : String) (ps : Params) (env : ExecutionEnvironment)
    (cid : Option String) (now : Nat) (r : ExecutionDetail)
    (h : get_execution s i = some r) :
    (create_execution s i g ep ps env cid now).1.status = ExecutionStatus.QUEUED
    ∧ (create_execution s i g ep ps env cid now).1.created_at = now
    ∧ (create_execution s i g ep ps env cid now).1.updated_at = now
    ∧ (create_execution s i g ep ps env cid now).1.result = none
    ∧ (create_execution s i g ep ps env cid now).1.error = none
    ∧ get_execution (create_execution s i g ep ps env cid now).2 i
        = some (create_execution s i g ep ps env cid now).1
    ∧ logsOf (create_execution s i g ep ps env cid now).2 i = logsOf s i := by
  obtain ⟨hget, hlogs, -⟩ := create_execution_effects s i g ep ps env cid now
  exact ⟨rfl, rfl, rfl, rfl, rfl, hget, hlogs⟩

/-- Witness for the amended C1: the second `create` on `storeA`'s id `e1`. -/
theorem create_duplicate_overwrites_witness :
    get_execution storeA "e1" = some detailA
    ∧ ((create_execution storeA "e1" sampleGit "other.py" []
          ExecutionEnvironment.LOCAL none 5).1.status = ExecutionStatus.QUEUED
      ∧ (create_execution storeA "e1" sampleGit "other.py" []
          ExecutionEnvironment.LOCAL none 5).1.created_at = 5
      ∧ (create_execution storeA "e1" sampleGit "other.py" []
          ExecutionEnvironment.LOCAL none 5).1.updated_at = 5
      ∧ (create_execution storeA "e1" sampleGit "other.py" []
          ExecutionEnvironment.LOCAL none 5).1.result = none
      ∧ (create_execution storeA "e1" sampleGit "other.py" []
          ExecutionEnvironment.LOCAL none 5).1.error = none
      ∧ get_execution (create_execution storeA "e1" sampleGit "other.py" []
            ExecutionEnvironment.LOCAL none 5).2 "e1"
          = some (create_execution storeA "e1" sampleGit "other.py" []
            ExecutionEnvironment.LOCAL none 5).1
      ∧ logsOf (create_execution storeA "e1" sampleGit "other.py" []
          ExecutionEnvironment.LOCAL none 5).2 "e1" = logsOf storeA "e1") :=
  ⟨rfl, create_duplicate_overwrites storeA "e1" sampleGit "other.py" []
    ExecutionEnvironment.LOCAL none 5 detailA rfl⟩

/-- C10: calling `create` with an id that already exists succeeds: the record
is replaced by a fresh QUEUED one (new timestamps, cleared result and error),
the id's existing log buffer is kept with all previously appended lines, the
id is appended a second time to the creation order, and a `list` call with a
large enough limit returns the record for that id twice. -/
theorem create_duplicate_relists (s : Store) (i : String) (g : GitSource)
    (ep : String) (ps : Params) (env : ExecutionEnvironment)
    (cid : Option String) (now : Nat) (r : ExecutionDetail)
    (h : get_execution s i = some r) (hmem : i ∈ s.created_order) :
    (create_execution s i g ep ps env cid now).1
        = { execution_id := i, status := ExecutionStatus.QUEUED,
            environment := env, created_at := now, updated_at := now,
            correlation_id := cid, git := g, entrypoint := ep,
            parameters := ps, result := none, error := none,
            logs_pointer := "mem:" ++ i }
    ∧ get_execution (create_execution s i g ep ps env cid now).2 i
        = some (create_execution s i g ep ps env cid now).1
    ∧ logsOf (create_execution s i g ep ps env cid now).2 i = logsOf s i
    ∧ (create_execution s i g ep ps env cid now).2.created_order
        = s.created_order ++ [i]
    ∧ ∀ limit, s.created_order.length + 1 ≤ limit →
        2 ≤ List.countP (fun d => decide (d.execution_id = i))
              (list_executions (create_execution s i g ep ps env cid now).2
                limit none) := by
  obtain ⟨hget, hlogs, -⟩ := create_execution_effects s i g ep ps env cid now
  refine ⟨rfl, hget, hlogs, rfl, ?_⟩
  intro limit hlim
  have horder : (create_execution s i g ep ps env cid now).2.created_order
      = s.created_order ++ [i] := rfl
  have hlast : lastN limit (create_execution s i g ep ps env cid now).2.created_order
      = s.created_order ++ [i] := by
    rw [horder]
    exact lastN_of_le _ _ (by simp; omega)
  have hperm :
      (list_executions (create_execution s i g ep ps env cid now).2 limit none).Perm
        ((s.created_order ++ [i]).filterMap
          (fun j => dictGet j (create_execution s i g ep ps env cid now).2.executions)) := by
    simp only [list_executions, hlast]
    exact List.mergeSort_perm _ _
  rw [hperm.countP_eq]
  have hcount : 2 ≤ (s.created_order ++ [i]).count i := by
    rw [List.count_append]
    have h1 : 1 ≤ s.created_order.count i := List.one_le_count_iff.mpr hmem
    have h2 : List.count i [i] = 1 := by simp
    omega
  have hle := count_le_countP_filterMap
    (fun j => dictGet j (create_execution s i g ep ps env cid now).2.executions)
    (fun d => decide (d.execution_id = i)) i
    (create_execution s i g ep ps env cid now).1
    (by simpa [get_execution] using hget) (by simp [create_execution])
    (s.created_order ++ [i])
  omega

/-- Witness for C10 at `storeA` with a second `create` of `e1` at time 5. -/
theorem create_duplicate_relists_witness :
    get_execution storeA "e1" = some detailA ∧ "e1" ∈ storeA.created_order
    ∧ ((create_execution storeA "e1" sampleGit "other.py" []
          ExecutionEnvironment.LOCAL none 5).1
        = { execution_id := "e1", status := ExecutionStatus.QUEUED,
            environment := ExecutionEnvironment.LOCAL, created_at := 5,
            updated_at := 5, correlation_id := none, git := sampleGit,
            entrypoint := "other.py", parameters := [], result := none,
            error := none, logs_pointer := "mem:" ++ "e1" }
      ∧ get_execution (create_execution storeA "e1" sampleGit "other.py" []
            ExecutionEnvironment.LOCAL none 5).2 "e1"
          = some (create_execution storeA "e1" sampleGit "other.py" []
            ExecutionEnvironment.LOCAL none 5).1
      ∧ logsOf (create_execution storeA "e1" sampleGit "other.py" []
          ExecutionEnvironment.LOCAL none 5).2 "e1" = logsOf storeA "e1"
      ∧ (create_execution storeA "e1" sampleGit "other.py" []
          ExecutionEnvironment.LOCAL none 5).2.created_order
          = storeA.created_order ++ ["e1"]
      ∧ ∀ limit, storeA.created_order.length + 1 ≤ limit →
          2 ≤ List.countP (fun d => decide (d.execution_id = "e1"))
                (list_executions (create_execution storeA "e1" sampleGit "other.py" []
                  ExecutionEnvironment.LOCAL none 5).2 limit none)) :=
  ⟨rfl, by decide,
    create_duplicate_relists storeA "e1" sampleGit "other.py" []
      ExecutionEnvironment.LOCAL none 5 detailA rfl (by decide)⟩

/-- C6: pagination is associative — on the same store, reading `limit` lines
at `offset` and then `limit2` lines at `offset + limit` yields the same lines
as a single read of `limit + limit2` lines at `offset`. -/
theorem read_logs_pagination_assoc (s : Store) (i : String) (o l l' : Nat)
    (h1 : 1 ≤ l) (h2 : 1 ≤ l') :
    (read_logs s i o l).1 ++ (read_logs s i (o + l) l').1
      = (read_logs s i o (l + l')).1 := by
  simp only [read_logs_fst]
  rw [List.take_add, List.drop_drop]

/-- Witness for C6 at `storeA` with `offset = 1`, limits 1 and 1. -/
theorem read_logs_pagination_assoc_witness :
    1 ≤ 1 ∧ 1 ≤ 1
    ∧ (read_logs storeA "e1" 1 1).1 ++ (read_logs storeA "e1" (1 + 1) 1).1
        = (read_logs storeA "e1" 1 (1 + 1)).1 :=
  ⟨by decide, by decide,
    read_logs_pagination_assoc storeA "e1" 1 1 1 (by decide) (by decide)⟩

/-- C8: `update_status` on an existing record sets the status unconditionally
(no transition table: any status, even a terminal one back to QUEUED, is
accepted), sets `result`/`error` only when the corresponding argument is
provided, refreshes `updated_at`, and changes nothing else: all other record
fields, every other record, the log buffers and the creation order are
untouched. -/
theorem update_status_contract (s : Store) (i : String) (st : ExecutionStatus)
    (res : Option ResultPayload) (err : Option String) (now : Nat)
    (r : ExecutionDetail) (h : get_execution s i = some r) :
    (update_status s i st res err now).1
        = some { r with
            status := st
            result := match res with | some v => some v | none => r.result
            error := match err with | some v => some v | none => r.error
            updated_at := now }
    ∧ get_execution (update_status s i st res err now).2 i
        = (update_status s i st res err now).1
    ∧ (∀ j, j ≠ i →
        get_execution (update_status s i st res err now).2 j = get_execution s j)
    ∧ (update_status s i st res err now).2.logs = s.logs
    ∧ (update_status s i st res err now).2.created_order = s.created_order := by
  simp only [get_execution] at h
  refine ⟨?_, ?_, ?_, ?_, ?_⟩
  · simp [update_status, h]
  · simp [update_status, h, get_execution, dictGet_dictInsert_self]
  · intro j hj
    simp [update_status, h, get_execution, dictGet_dictInsert_ne j i (Ne.symm hj)]
  · simp [update_status, h]
  · simp [update_status, h]

/-- Witness for C8: moving the COMPLETED record `e1` of `storeA2` back to
QUEUED at time 7, providing neither result nor error. -/
theorem update_status_contract_witness :
    get_execution storeA2 "e1" = some detailA2
    ∧ ((update_status storeA2 "e1" ExecutionStatus.QUEUED none none 7).1
        = some { detailA2 with
            status := ExecutionStatus.QUEUED
            result := match (none : Option ResultPayload) with
              | some v => some v | none => detailA2.result
            error := match (none : Option String) with
              | some v => some v | none => detailA2.error
            updated_at := 7 }
      ∧ get_execution (update_status storeA2 "e1" ExecutionStatus.QUEUED none none 7).2 "e1"
          = (update_status storeA2 "e1" ExecutionStatus.QUEUED none none 7).1
      ∧ (∀ j, j ≠ "e1" →
          get_execution (update_status storeA2 "e1" ExecutionStatus.QUEUED none none 7).2 j
            = get_execution storeA2 j)
      ∧ (update_status storeA2 "e1" ExecutionStatus.QUEUED none none 7).2.logs
          = storeA2.logs
      ∧ (update_status storeA2 "e1" ExecutionStatus.QUEUED none none 7).2.created_order
          = storeA2.created_order) :=
  ⟨rfl, update_status_contract storeA2 "e1" ExecutionStatus.QUEUED none none 7
    detailA2 rfl⟩

/-- The `stats` loop adds, to each per-status counter of the accumulator, the
number of records with that status, and never touches `total`. -/
theorem stats_foldl (l : List (String × ExecutionDetail)) (t : StatsTotals) :
    l.foldl (fun t kv => statsBump t kv.2.status) t
      = { total := t.total
          queued := t.queued + List.countP
            (fun kv : String × ExecutionDetail =>
              decide (kv.2.status = ExecutionStatus.QUEUED)) l
          running := t.running + List.countP
            (fun kv : String × ExecutionDetail =>
              decide (kv.2.status = ExecutionStatus.RUNNING)) l
          completed := t.completed + List.countP
            (fun kv : String × ExecutionDetail =>
              decide (kv.2.status = ExecutionStatus.COMPLETED)) l
          failed := t.failed + List.countP
            (fun kv : String × ExecutionDetail =>
              decide (kv.2.status = ExecutionStatus.FAILED)) l
          canceled := t.canceled + List.countP
            (fun kv : String × ExecutionDetail =>
              decide (kv.2.status = ExecutionStatus.CANCELED)) l
          timeout := t.timeout + List.countP
            (fun kv : String × ExecutionDetail =>
              decide (kv.2.status = ExecutionStatus.TIMEOUT)) l } := by
  induction l generalizing t with
  | nil => simp
  | cons hd tl ih =>
    rw [List.foldl_cons, ih]
    cases hst : hd.2.status <;>
      simp [statsBump, List.countP_cons, hst, StatsTotals.mk.injEq] <;>
      omega

/-- C9: `stats` returns `total` equal to the number of execution records and,
for each of the six statuses, the number of records currently in that status;
in particular on `storeC` (two QUEUED records and one COMPLETED record) it
returns total 3, queued 2, completed 1, and 0 for every other status. -/
theorem stats_contract (s : Store) :
    stats s
      = { total := s.executions.length
          queued := List.countP
            (fun kv : String × ExecutionDetail =>
              decide (kv.2.status = ExecutionStatus.QUEUED)) s.executions
          running := List.countP
            (fun kv : String × ExecutionDetail =>
              decide (kv.2.status = ExecutionStatus.RUNNING)) s.executions
          completed := List.countP
            (fun kv : String × ExecutionDetail =>
              decide (kv.2.status = ExecutionStatus.COMPLETED)) s.executions
          failed := List.countP
            (fun kv : String × ExecutionDetail =>
              decide (kv.2.status = ExecutionStatus.FAILED)) s.executions
          canceled := List.countP
            (fun kv : String × ExecutionDetail =>
              decide (kv.2.status = ExecutionStatus.CANCELED)) s.executions
          timeout := List.countP
            (fun kv : String × ExecutionDetail =>
              decide (kv.2.status = ExecutionStatus.TIMEOUT)) s.executions }
    ∧ stats storeC
      = { total := 3, queued := 2, running := 0, completed := 1,
          failed := 0, canceled := 0, timeout := 0 } := by
  constructor
  · rw [stats, stats_foldl]
    simp
  · decide

/-- Unfolding lemma: `list_executions` is the stable descending sort of the filtered tail. -/
theorem list_executions_eq (s : Store) (limit : Nat)
    (status : Option ExecutionStatus) :
    list_executions s limit status
      = (filteredTail s limit status).mergeSort
          (fun a b => decide (b.created_at ≤ a.created_at)) := by
  cases status <;> rfl

/-- C5: `list_executions(limit, statusFilter)` returns exactly the records of
the last `limit` ids in creation order, restricted to the filter when given,
as a list sorted by `created_at` descending; it returns at most `limit`
records, and (shown on `storeTail`) a status filter can return fewer matching
records than exist in the whole history, because the limit is applied to the
creation-order tail before filtering; on `storeC` (e1,e2,e3 created in order,
only e2 COMPLETED) filtering by COMPLETED returns exactly the e2 record. -/
theorem list_executions_contract (s : Store) (limit : Nat)
    (status : Option ExecutionStatus) (h : 1 ≤ limit) :
    (list_executions s limit status).Perm (filteredTail s limit status)
    ∧ List.Sorted (fun a b : ExecutionDetail => b.created_at ≤ a.created_at)
        (list_executions s limit status)
    ∧ (list_executions s limit status).length ≤ limit
    ∧ list_executions storeC 10 (some ExecutionStatus.COMPLETED) = [detailE2]
    ∧ list_executions storeTail 2 (some ExecutionStatus.COMPLETED) = []
    ∧ Option.map ExecutionDetail.status (get_execution storeTail "m1")
        = some ExecutionStatus.COMPLETED := by
  have hperm : (list_executions s limit status).Perm (filteredTail s limit status) := by
    rw [list_executions_eq]
    exact List.mergeSort_perm _ _
  refine ⟨hperm, ?_, ?_, ?_, ?_, rfl⟩
  · have htrans : ∀ a b c : ExecutionDetail,
        decide (b.created_at ≤ a.created_at) = true →
        decide (c.created_at ≤ b.created_at) = true →
        decide (c.created_at ≤ a.created_at) = true := by
      intro a b c h1 h2
      simp only [decide_eq_true_eq] at h1 h2 ⊢
      omega
    have htotal : ∀ a b : ExecutionDetail,
        (decide (b.created_at ≤ a.created_at)
          || decide (a.created_at ≤ b.created_at)) = true := by
      intro a b
      simp only [Bool.or_eq_true, decide_eq_true_eq]
      omega
    rw [list_executions_eq]
    exact (List.sorted_mergeSort htrans htotal (filteredTail s limit status)).imp
      (fun hab => of_decide_eq_true hab)
  · rw [hperm.length_eq]
    have h1 : (filteredTail s limit status).length ≤ (tailRecords s limit).length := by
      cases status with
      | none => exact le_refl _
      | some st => exact List.length_filter_le _ _
    have h2 : (tailRecords s limit).length ≤ (lastN limit s.created_order).length :=
      List.length_filterMap_le _ _
    have h3 : (lastN limit s.created_order).length ≤ limit := by
      simp only [lastN, List.length_drop]
      omega
    omega
  · rw [list_executions_eq]
    have hft : filteredTail storeC 10 (some ExecutionStatus.COMPLETED) = [detailE2] := by
      decide
    rw [hft]
    exact List.mergeSort_singleton detailE2
  · rw [list_executions_eq]
    have hft : filteredTail storeTail 2 (some ExecutionStatus.COMPLETED) = [] := by
      decide
    rw [hft]
    exact List.mergeSort_nil

/-- Witness for C5 at `storeC` with limit 10 and the COMPLETED filter. -/
theorem list_executions_contract_witness :
    1 ≤ 10
    ∧ ((list_executions storeC 10 (some ExecutionStatus.COMPLETED)).Perm
          (filteredTail storeC 10 (some ExecutionStatus.COMPLETED))
      ∧ List.Sorted (fun a b : ExecutionDetail => b.created_at ≤ a.created_at)
          (list_executions storeC 10 (some ExecutionStatus.COMPLETED))
      ∧ (list_executions storeC 10 (some ExecutionStatus.COMPLETED)).length ≤ 10
      ∧ list_executions storeC 10 (some ExecutionStatus.COMPLETED) = [detailE2]
      ∧ list_executions storeTail 2 (some ExecutionStatus.COMPLETED) = []
      ∧ Option.map ExecutionDetail.status (get_execution storeTail "m1")
          = some ExecutionStatus.COMPLETED) :=
  ⟨by decide,
    list_executions_contract storeC 10 (some ExecutionStatus.COMPLETED) (by decide)⟩

/-!  ## Timestamp monotonicity along call traces (C7) -/

/-- One mutating call at a clock value at least the current bound keeps every
record's timestamps ordered and bounded by the new clock value. -/
theorem timesBelow_applyOp (t now : Nat) (op : Op) (s : Store)
    (h : TimesBelow t s) (hle : t ≤ now) :
    TimesBelow now (applyOp now op s) := by
  cases op with
  | create i g e p env c =>
    intro j r hj
    by_cases hji : j = i
    · subst hji
      simp only [applyOp, create_execution, get_execution,
        dictGet_dictInsert_self] at hj
      cases Option.some.inj hj
      exact ⟨le_refl _, le_refl _⟩
    · have hfr : get_execution (applyOp now (Op.create i g e p env c) s) j
          = get_execution s j := by
        simp [applyOp, create_execution, get_execution,
          dictGet_dictInsert_ne j i (Ne.symm hji)]
      rw [hfr] at hj
      obtain ⟨h1, h2⟩ := h j r hj
      exact ⟨h1, h2.trans hle⟩
  | update i st res err =>
    intro j r hj
    cases hd : dictGet i s.executions with
    | none =>
      have hfr : applyOp now (Op.update i st res err) s = s := by
        simp [applyOp, update_status, hd]
      rw [hfr] at hj
      obtain ⟨h1, h2⟩ := h j r hj
      exact ⟨h1, h2.trans hle⟩
    | some d =>
      by_cases hji : j = i
      · subst hji
        obtain ⟨hd1, hd2⟩ := h j d (by simpa [get_execution] using hd)
        simp only [applyOp, update_status, hd, get_execution,
          dictGet_dictInsert_self] at hj
        cases Option.some.inj hj
        exact ⟨by simp; omega, le_refl _⟩
      · have hfr : get_execution (applyOp now (Op.update i st res err) s) j
            = get_execution s j := by
          simp [applyOp, update_status, hd, get_execution,
            dictGet_dictInsert_ne j i (Ne.symm hji)]
        rw [hfr] at hj
        obtain ⟨h1, h2⟩ := h j r hj
        exact ⟨h1, h2.trans hle⟩
  | append i ls =>
    intro j r hj
    obtain ⟨h1, h2⟩ := h j r hj
    exact ⟨h1, h2.trans hle⟩

/-- One mutating call at a clock value at least the current bound never
decreases the `updated_at` of an existing record. -/
theorem updated_mono_applyOp (t now : Nat) (op : Op) (s : Store) (i : String)
    (r : ExecutionDetail) (h : TimesBelow t s) (hle : t ≤ now)
    (hr : get_execution s i = some r) :
    ∃ r', get_execution (applyOp now op s) i = some r'
      ∧ r.updated_at ≤ r'.updated_at := by
  obtain ⟨-, hrt⟩ := h i r hr
  cases op with
  | create j g e p env c =>
    by_cases hji : i = j
    · subst hji
      refine ⟨(create_execution s i g e p env c now).1, ?_, ?_⟩
      · simp [applyOp, create_execution, get_execution, dictGet_dictInsert_self]
      · show r.updated_at ≤ now
        omega
    · exact ⟨r, by simpa [applyOp, create_execution, get_execution,
        dictGet_dictInsert_ne i j (fun he => hji he.symm)] using hr,
        le_refl _⟩
  | update j st res err =>
    cases hd : dictGet j s.executions with
    | none =>
      have hfr : applyOp now (Op.update j st res err) s = s := by
        simp [applyOp, update_status, hd]
      exact ⟨r, by rw [hfr]; exact hr, le_refl _⟩
    | some d =>
      by_cases hji : i = j
      · subst hji
        have hdr : d = r := by
          simp only [get_execution] at hr
          rw [hr] at hd
          exact (Option.some.inj hd).symm
        subst hdr
        refine ⟨{ d with
            status := st
            result := match res with | some v => some v | none => d.result
            error := match err with | some v => some v | none => d.error
            updated_at := now }, ?_, ?_⟩
        · simp [applyOp, update_status, hd, get_execution, dictGet_dictInsert_self]
        · show d.updated_at ≤ now
          omega
      · exact ⟨r, by simpa [applyOp, update_status, hd, get_execution,
          dictGet_dictInsert_ne i j (fun he => hji he.symm)] using hr,
          le_refl _⟩
  | append j ls => exact ⟨r, hr, le_refl _⟩

/-- Running a monotone trace keeps every record's timestamps ordered and
bounded by the final clock value. -/
theorem timesBelow_run (tr : List (Nat × Op)) :
    ∀ t s, TimesBelow t s → chainLE t tr = true →
      TimesBelow (lastClock t tr) (run tr s) := by
  induction tr with
  | nil => intro t s h _; exact h
  | cons hd tl ih =>
    intro t s h hc
    cases hd with
    | mk n op =>
      simp only [chainLE, Bool.and_eq_true, decide_eq_true_eq] at hc
      exact ih n _ (timesBelow_applyOp t n op s h hc.1) hc.2

/-- Running a monotone trace never decreases the `updated_at` of a record
that exists when the trace starts. -/
theorem updated_mono_run (tr : List (Nat × Op)) :
    ∀ t s i r, TimesBelow t s → chainLE t tr = true →
      get_execution s i = some r →
      ∃ r', get_execution (run tr s) i = some r'
        ∧ r.updated_at ≤ r'.updated_at := by
  induction tr with
  | nil => intro t s i r _ _ hr; exact ⟨r, hr, le_refl _⟩
  | cons hd tl ih =>
    intro t s i r h hc hr
    cases hd with
    | mk n op =>
      simp only [chainLE, Bool.and_eq_true, decide_eq_true_eq] at hc
      obtain ⟨r1, hr1, hu1⟩ := updated_mono_applyOp t n op s i r h hc.1 hr
      obtain ⟨r', hr', hu'⟩ := ih n (applyOp n op s) i r1
        (timesBelow_applyOp t n op s h hc.1) hc.2 hr1
      exact ⟨r', hr', hu1.trans hu'⟩

/-- A monotone trace splits into a monotone prefix and a monotone suffix
starting at the prefix's final clock value. -/
theorem chainLE_append (tr1 tr2 : List (Nat × Op)) :
    ∀ t, chainLE t (tr1 ++ tr2) = true →
      chainLE t tr1 = true ∧ chainLE (lastClock t tr1) tr2 = true := by
  induction tr1 with
  | nil => intro t h; exact ⟨rfl, h⟩
  | cons hd tl ih =>
    cases hd with
    | mk n op =>
      intro t h
      simp only [List.cons_append, chainLE, Bool.and_eq_true,
        decide_eq_true_eq] at h ⊢
      obtain ⟨h1, h2⟩ := h
      obtain ⟨h3, h4⟩ := ih n h2
      exact ⟨⟨h1, h3⟩, h4⟩

/-- C7: starting from the empty store and running any trace of repository
calls under a monotone clock, every record satisfies
`created_at ≤ updated_at`, and across any further calls (in particular any
sequence of `update_status` calls) a record's `updated_at` never decreases. -/
theorem updated_at_monotone (tr1 tr2 : List (Nat × Op))
    (hmono : chainLE 0 (tr1 ++ tr2) = true) :
    (∀ i r, get_execution (run tr1 emptyStore) i = some r →
        r.created_at ≤ r.updated_at)
    ∧ (∀ i r r', get_execution (run tr1 emptyStore) i = some r →
        get_execution (run tr2 (run tr1 emptyStore)) i = some r' →
        r.updated_at ≤ r'.updated_at) := by
  have hempty : TimesBelow 0 emptyStore := by
    intro i r hr
    simp [get_execution, emptyStore, dictGet] at hr
  obtain ⟨h1, h2⟩ := chainLE_append tr1 tr2 0 hmono
  have hTB := timesBelow_run tr1 0 emptyStore hempty h1
  constructor
  · intro i r hr
    exact (hTB i r hr).1
  · intro i r r' hr hr'
    obtain ⟨r'', hr'', hu⟩ :=
      updated_mono_run tr2 (lastClock 0 tr1) (run tr1 emptyStore) i r hTB h2 hr
    have : r'' = r' := Option.some.inj (hr''.symm.trans hr')
    subst this
    exact hu

/-- Witness for C7: create `w1` at time 0, then mark it RUNNING at time 3. -/
theorem updated_at_monotone_witness :
    chainLE 0
        ([(0, Op.create "w1" sampleGit "run.py" [] ExecutionEnvironment.SIMULATED none)]
          ++ [(3, Op.update "w1" ExecutionStatus.RUNNING none none)]) = true
    ∧ ((∀ i r, get_execution
          (run [(0, Op.create "w1" sampleGit "run.py" [] ExecutionEnvironment.SIMULATED none)]
            emptyStore) i = some r → r.created_at ≤ r.updated_at)
      ∧ (∀ i r r', get_execution
            (run [(0, Op.create "w1" sampleGit "run.py" [] ExecutionEnvironment.SIMULATED none)]
              emptyStore) i = some r →
          get_execution
            (run [(3, Op.update "w1" ExecutionStatus.RUNNING none none)]
              (run [(0, Op.create "w1" sampleGit "run.py" [] ExecutionEnvironment.SIMULATED none)]
                emptyStore)) i = some r' →
          r.updated_at ≤ r'.updated_at)) :=
  ⟨rfl, updated_at_monotone
    [(0, Op.create "w1" sampleGit "run.py" [] ExecutionEnvironment.SIMULATED none)]
    [(3, Op.update "w1" ExecutionStatus.RUNNING none none)] rfl⟩

end ExecutionService
